import Mathlib

set_option maxHeartbeats 1000000

/-!
Shallow embedding of the core collection pipeline of the news-scraper
repository.  Definitions whose name ends in a plain identifier come from
`src/newsScrp.py` (the CLI module); definitions whose name carries the
suffix `S` come from `src/api/search.py` (the streaming API module), and
the suffix `W` marks the copies in `src/web/server.py`.  Python strings
are modelled as Lean `String`; `str.lower` is modelled as per-character
ASCII lowercasing (the repository's data is ASCII/Korean, where the two
agree); network effects are modelled by an explicit oracle of fetch
outcomes, and `time.time()` readings by explicit elapsed-seconds values.
-/

/-- Lowercase a string character by character (models Python `str.lower()`). -/
def lowerStr (s : String) : String := String.mk (s.toList.map Char.toLower)

/-- Strip leading and trailing whitespace (models Python `str.strip()`). -/
def trimStr (s : String) : String :=
  String.mk (((s.toList.dropWhile Char.isWhitespace).reverse.dropWhile
    Char.isWhitespace).reverse)

/-- Remove every occurrence of one character (models Python `str.replace(c, "")`). -/
def removeChar (c : Char) (s : String) : String :=
  String.mk (s.toList.filter (fun x => x ≠ c))

/-- Substring test: `strContains hay needle` models Python `needle in hay`. -/
def strContains (hay needle : String) : Bool :=
  hay.toList.tails.any (fun t => needle.toList.isPrefixOf t)

/-- Static exclusion keyword blocklist, `EXCLUDE_KEYWORDS` in
`src/newsScrp.py`; the copy in `src/api/search.py` lists the same 29 terms. -/
def EXCLUDE_KEYWORDS : List String :=
  ["1박2일", "전통시장", "설명회", "야구", "승진", "사과문", "채용", "날씨", "결혼", "합격자",
   "시상식", "청약", "대회", "축제", "당선작", "박람회", "수상자", "페스티벌", "마라톤", "캠페인",
   "귀농", "귀촌", "패션쇼", "미술제", "결방", "문화제", "[포토]", "음악극", "클래식"]

/-- Keyword filter of `src/newsScrp.py` (`should_exclude_by_keywords`):
checks each keyword against the lowered title and against the lowered
title with spaces and hyphens removed, plus two spaced variants of
"1박2일" against the original title. -/
def should_exclude_by_keywords (title : String) : Bool :=
  if title = "" then false
  else
    let t := lowerStr title
    let tCompact := removeChar '-' (removeChar ' ' t)
    (EXCLUDE_KEYWORDS.any (fun kw =>
      let k := lowerStr kw
      strContains t k || strContains tCompact k))
    || strContains title "1박 2일" || strContains title "1 박 2 일"

/-- Keyword filter of `src/api/search.py` (`should_exclude_by_keywords`):
checks each keyword only against the title with spaces and hyphens
removed (no lowercasing, no extra variants). -/
def should_exclude_by_keywordsS (title : String) : Bool :=
  let clean := removeChar '-' (removeChar ' ' title)
  EXCLUDE_KEYWORDS.any (fun kw => strContains clean kw)

/-- Fixed query-suffix list `QUERY_SUFFIXES`, identical in both modules. -/
def QUERY_SUFFIXES : List String := ["간", "동안", "만", "간의", "만의", "만에"]

/-- Query-suffix filter of `src/newsScrp.py`
(`should_exclude_by_query_suffix`): returns `false` for an empty title or
query, lowers and strips the query, and otherwise tests the three
patterns `q+s`, `q+" "+s`, `q(no-spaces)+s` for each suffix against the
lowered title. -/
def should_exclude_by_query_suffix (title query : String) : Bool :=
  if title = "" ∨ query = "" then false
  else
    let t := lowerStr title
    let q := trimStr (lowerStr query)
    if q = "" then false
    else
      let qCompact := removeChar ' ' q
      QUERY_SUFFIXES.any (fun suf =>
        let s := lowerStr suf
        [q ++ s, q ++ " " ++ s, qCompact ++ s].any (fun p => strContains t p))

/-- Query-suffix filter of `src/api/search.py`
(`should_exclude_by_query_suffix`): no emptiness guards and no stripping;
the query is only lowered. -/
def should_exclude_by_query_suffixS (title query : String) : Bool :=
  let t := lowerStr title
  let q := lowerStr query
  QUERY_SUFFIXES.any (fun suf =>
    [q ++ suf, q ++ " " ++ suf, removeChar ' ' q ++ suf].any (fun p => strContains t p))

/-- Character class of the tokenizer regex `[A-Za-z0-9가-힣]` in
`src/newsScrp.py`. -/
def isWordCharCLI (c : Char) : Bool :=
  decide (('A' ≤ c ∧ c ≤ 'Z') ∨ ('a' ≤ c ∧ c ≤ 'z') ∨
          ('0' ≤ c ∧ c ≤ '9') ∨ ('가' ≤ c ∧ c ≤ '힣'))

/-- Character class of the tokenizer regex `[가-힣a-zA-Z0-9]` in
`src/api/search.py`. -/
def isWordCharAPI (c : Char) : Bool :=
  decide (('가' ≤ c ∧ c ≤ '힣') ∨ ('a' ≤ c ∧ c ≤ 'z') ∨
          ('A' ≤ c ∧ c ≤ 'Z') ∨ ('0' ≤ c ∧ c ≤ '9'))

/-- Accumulator-style extraction of the maximal runs of characters
satisfying `p`, in order (the semantics of `re.findall` with a
one-character-class-plus regex).  `cur` holds the current run reversed. -/
def runsByAux (p : Char → Bool) : List Char → List Char → List (List Char)
  | [], cur => if cur.isEmpty then [] else [cur.reverse]
  | c :: cs, cur =>
    if p c then runsByAux p cs (c :: cur)
    else if cur.isEmpty then runsByAux p cs []
    else cur.reverse :: runsByAux p cs []

/-- Maximal runs of characters satisfying `p`. -/
def runsBy (p : Char → Bool) (l : List Char) : List (List Char) :=
  runsByAux p l []

/-- Tokenizer of `src/newsScrp.py` (`tokenize`): findall over the lowered
text, then drop tokens of length < 2. -/
def tokenize (text : String) : List String :=
  ((runsBy isWordCharCLI (lowerStr text).toList).map String.mk).filter
    (fun t => 2 ≤ t.length)

/-- Tokenizer of `src/api/search.py` (`tokenize`): findall over the
lowered text, all tokens kept (the Python function returns them as a
set; the underlying extracted tokens are modelled as a list). -/
def tokenizeS (text : String) : List String :=
  (runsBy isWordCharAPI (lowerStr text).toList).map String.mk

/-- Token set of a title under the CLI tokenizer. -/
def tokSet (text : String) : Finset String := (tokenize text).toFinset

/-- Token set of a title under the streaming-API tokenizer. -/
def tokSetS (text : String) : Finset String := (tokenizeS text).toFinset

/-- Near-duplicate check of `src/newsScrp.py` (`has_overlap_three_or_more`):
empty candidate token set short-circuits to `false`; otherwise any prior
title sharing 3 or more tokens triggers `true`. -/
def has_overlap_three_or_more (candidate : String) (existing : List String) : Bool :=
  let cand := tokSet candidate
  if cand = ∅ then false
  else existing.any (fun prev => decide (3 ≤ (cand ∩ tokSet prev).card))

/-- Near-duplicate check of `src/api/search.py`
(`has_overlap_three_or_more`): no empty-set short-circuit. -/
def has_overlap_three_or_moreS (title : String) (existing : List String) : Bool :=
  existing.any (fun prev => decide (3 ≤ (tokSetS title ∩ tokSetS prev).card))

/-- Observable shape of one upstream HTTP response to the scrape call:
status code, response text, the `data.html` field of the JSON body if
present, and the top-level `html` field if present. -/
structure HttpResponse where
  status : Nat
  text : String
  dataHtml : Option String
  topHtml : Option String
deriving DecidableEq

/-- Classification of one scrape call as observed by the caller:
successful html, the rate-limited signal, or any other raised error. -/
inductive ScrapeResult
  | success (html : String)
  | rateLimited
  | otherError
deriving DecidableEq

/-- Fetch classification of `src/newsScrp.py` (`firecrawl_scrape`):
status 429 raises `RuntimeError("RATE_LIMIT")`; any other 4xx/5xx raises
via `raise_for_status`; otherwise the html is
`data.get("data", {}).get("html") or data.get("html", "")`. -/
def firecrawl_scrape (r : HttpResponse) : ScrapeResult :=
  if r.status = 429 then ScrapeResult.rateLimited
  else if 400 ≤ r.status ∧ r.status < 600 then ScrapeResult.otherError
  else ScrapeResult.success
    (match r.dataHtml with
     | some h => if h = "" then r.topHtml.getD "" else h
     | none => r.topHtml.getD "")

/-- Fetch classification of `src/api/search.py` (`firecrawl_scrape`):
status 200 returns `data.get("data", {}).get("html", "")`; otherwise the
message `"HTTP {status}: {text}"` is raised, tagged as a rate-limit error
exactly when it contains "rate limit" case-insensitively. -/
def firecrawl_scrapeS (r : HttpResponse) : ScrapeResult :=
  if r.status = 200 then ScrapeResult.success (r.dataHtml.getD "")
  else
    let msg := "HTTP " ++ toString r.status ++ ": " ++ r.text
    if strContains (lowerStr msg) "rate limit" then ScrapeResult.rateLimited
    else ScrapeResult.otherError

/-- Accepted result entry: `{"title": t, "url": u}` as appended by the
collection loops. -/
structure Item where
  title : String
  url : String
deriving DecidableEq

/-- Relation between accepted items: their CLI token sets share at most
2 tokens (the near-duplicate bound maintained by the CLI loop). -/
def overlapLE2 (a b : Item) : Prop :=
  (tokSet a.title ∩ tokSet b.title).card ≤ 2

/-- Relation between accepted items: their streaming-API token sets
share at most 2 tokens. -/
def overlapLE2S (a b : Item) : Prop :=
  (tokSetS a.title ∩ tokSetS b.title).card ≤ 2

/-- Outcome of one attempted page fetch as seen by a collection loop: the
rate-limit signal, any other raised error, or a page whose extracted
candidates are the given (title, url) pairs.  Page content is modelled at
the interface of `extract_titles_from_html`, whose output list the loops
consume. -/
inductive FetchOutcome
  | rateLimited
  | transientError
  | success (items : List (String × String))
deriving DecidableEq

/-- Mutable state of one collection loop: accumulated results, page
cursor `start`, and the consecutive-failure counter `attempts`. -/
structure LoopState where
  results : List Item
  start : Nat
  attempts : Nat
deriving DecidableEq

/-- Page-cursor bound `1 + (max_pages - 1) * 10` of the loop condition
(computed in `Int` to match Python subtraction). -/
def pageBound (maxPages : Nat) : Int := 1 + ((maxPages : Int) - 1) * 10

/-- Loop condition `len(results) < limit and start <= 1 + (max_pages - 1) * 10`. -/
def loopGuard (limit maxPages : Nat) (st : LoopState) : Prop :=
  st.results.length < limit ∧ (st.start : Int) ≤ pageBound maxPages

instance loopGuardDecidable (limit maxPages : Nat) (st : LoopState) :
    Decidable (loopGuard limit maxPages st) := by
  unfold loopGuard; infer_instance

/-- Per-page filtering/dedup pass of `collect_titles` in
`src/newsScrp.py`: for each extracted candidate in order, recompute the
accepted titles, skip exact duplicates, excluded keywords, query-suffix
matches and near-duplicates, append survivors, and stop the scan once
`limit` is reached. -/
def acceptItems (query : String) (limit : Nat) :
    List (String × String) → List Item → List Item
  | [], results => results
  | (t, u) :: rest, results =>
    let existingTitles := results.map Item.title
    if t ∈ existingTitles then acceptItems query limit rest results
    else if should_exclude_by_keywords t then acceptItems query limit rest results
    else if should_exclude_by_query_suffix t query then acceptItems query limit rest results
    else if has_overlap_three_or_more t existingTitles then acceptItems query limit rest results
    else
      let results2 := results ++ [Item.mk t u]
      if limit ≤ results2.length then results2
      else acceptItems query limit rest results2

/-- Result of a run of the CLI collection loop: a normal return of
`results[:limit]`, a propagated exception (which discards the
accumulated list), or a truncated observation when the supplied oracle
of upstream outcomes is exhausted while the loop would continue. -/
inductive RunResult
  | returned (items : List Item)
  | raised
  | truncated (st : LoopState)
deriving DecidableEq

/-- Collection loop of `collect_titles` in `src/newsScrp.py`, driven by
an explicit oracle of fetch outcomes (one per iteration).  Returns the
visited (state-at-top-of-iteration, consumed outcome) trace together
with the run result.  Rate limits back off and retry without touching
the cursor; other errors re-raise once `attempts` would exceed 5;
successful pages run the filtering pass, advance the cursor by 10 and
reset `attempts`. -/
def collect_titles_aux (query : String) (limit maxPages : Nat) :
    List FetchOutcome → LoopState → List (LoopState × FetchOutcome) × RunResult
  | [], st =>
    if loopGuard limit maxPages st then ([], RunResult.truncated st)
    else ([], RunResult.returned (st.results.take limit))
  | o :: rest, st =>
    if loopGuard limit maxPages st then
      match o with
      | FetchOutcome.rateLimited =>
        let r := collect_titles_aux query limit maxPages rest
          (LoopState.mk st.results st.start (st.attempts + 1))
        ((st, FetchOutcome.rateLimited) :: r.1, r.2)
      | FetchOutcome.transientError =>
        if 5 < st.attempts + 1 then ([(st, FetchOutcome.transientError)], RunResult.raised)
        else
          let r := collect_titles_aux query limit maxPages rest
            (LoopState.mk st.results st.start (st.attempts + 1))
          ((st, FetchOutcome.transientError) :: r.1, r.2)
      | FetchOutcome.success items =>
        let r := collect_titles_aux query limit maxPages rest
          (LoopState.mk (acceptItems query limit items st.results) (st.start + 10) 0)
        ((st, FetchOutcome.success items) :: r.1, r.2)
    else ([], RunResult.returned (st.results.take limit))

/-- Initial loop state: `results = []`, `start = 1`, `attempts = 0`. -/
def initState : LoopState := LoopState.mk [] 1 0

/-- Run of `collect_titles(query, limit, max_pages)` over an oracle of
upstream outcomes (the credential is assumed present; I/O prints and
sleeps are not modelled). -/
def collect_titles (query : String) (limit maxPages : Nat)
    (pages : List FetchOutcome) : RunResult :=
  (collect_titles_aux query limit maxPages pages initState).2

/-- States visited at the top of each iteration of `collect_titles`,
paired with the outcome consumed there. -/
def cliTrace (query : String) (limit maxPages : Nat)
    (pages : List FetchOutcome) : List (LoopState × FetchOutcome) :=
  (collect_titles_aux query limit maxPages pages initState).1

/-- Server-sent events of the streaming endpoints, as a closed tagged
union of the `type` field of each emitted JSON payload (payload fields
that the claims mention are carried; free-text messages are not). -/
inductive Event
  | start (query : String) (limit : Nat)
  | progress (current total page : Nat)
  | item (title url : String) (total : Nat)
  | pageComplete (page found total : Nat)
  | wait (seconds : Nat)
  | timeout
  | error
  | debug
  | complete (total : Nat)
deriving DecidableEq

/-- Page budget of the streaming endpoint in `src/api/search.py`: the
initial `max_pages = 300` is overwritten by
`max_pages = min(3, limit // 5 + 1)` before the loop starts. -/
def streamMaxPages (limit : Nat) : Nat := min 3 (limit / 5 + 1)

/-- Per-page filtering/dedup pass of `search_stream` in
`src/api/search.py`: like the CLI pass but with the module's own
predicates, the caller-supplied extra keyword and suffix blocklists, a
per-page `new_count`, and an immediately emitted `item` event for each
accepted entry.  Returns (results, new_count, events). -/
def acceptItemsS (q : String) (limit : Nat) (ck cs : List String) :
    List (String × String) → List Item → Nat → List Item × Nat × List Event
  | [], results, n => (results, n, [])
  | (t, u) :: rest, results, n =>
    let existingTitles := results.map Item.title
    if t ∈ existingTitles then acceptItemsS q limit ck cs rest results n
    else if should_exclude_by_keywordsS t then acceptItemsS q limit ck cs rest results n
    else if ck.any (fun kw => strContains (removeChar '-' (removeChar ' ' t)) kw) then
      acceptItemsS q limit ck cs rest results n
    else if cs.any (fun suffix =>
        [q ++ suffix, q ++ " " ++ suffix, removeChar ' ' q ++ suffix].any
          (fun p => strContains (lowerStr t) (lowerStr p))) then
      acceptItemsS q limit ck cs rest results n
    else if should_exclude_by_query_suffixS t q then acceptItemsS q limit ck cs rest results n
    else if has_overlap_three_or_moreS t existingTitles then acceptItemsS q limit ck cs rest results n
    else
      let results2 := results ++ [Item.mk t u]
      if limit ≤ results2.length then (results2, n + 1, [Event.item t u results2.length])
      else
        let r := acceptItemsS q limit ck cs rest results2 (n + 1)
        (r.1, r.2.1, Event.item t u results2.length :: r.2.2)

/-- Collection loop of `search_stream` in `src/api/search.py`, driven by
an oracle of (elapsed-seconds-at-top-of-iteration, fetch outcome) pairs.
Returns (final results, emitted loop events, loop-finished flag); the
flag is `false` only when the oracle is exhausted with the loop still
running.  The wall-clock budget `timeout_limit = 120` is checked at the
top of each iteration, before any fetch. -/
def search_stream_aux (q : String) (limit : Nat) (ck cs : List String) :
    List (Nat × FetchOutcome) → LoopState → List Item × List Event × Bool
  | [], st =>
    if loopGuard limit (streamMaxPages limit) st then (st.results, [], false)
    else (st.results, [], true)
  | (e, o) :: rest, st =>
    if loopGuard limit (streamMaxPages limit) st then
      if 120 < e then (st.results, [Event.timeout], true)
      else
        match o with
        | FetchOutcome.rateLimited =>
          let r := search_stream_aux q limit ck cs rest
            (LoopState.mk st.results st.start (st.attempts + 1))
          (r.1, Event.progress st.results.length limit st.start :: Event.debug ::
            Event.debug :: Event.wait (min 5 (1 + st.attempts)) :: r.2.1, r.2.2)
        | FetchOutcome.transientError =>
          if 3 < st.attempts + 1 then
            (st.results, [Event.progress st.results.length limit st.start,
              Event.debug, Event.debug, Event.error], true)
          else
            let r := search_stream_aux q limit ck cs rest
              (LoopState.mk st.results st.start (st.attempts + 1))
            (r.1, Event.progress st.results.length limit st.start :: Event.debug ::
              Event.debug :: Event.error :: r.2.1, r.2.2)
        | FetchOutcome.success items =>
          let a := acceptItemsS q limit ck cs items st.results 0
          let r := search_stream_aux q limit ck cs rest
            (LoopState.mk a.1 (st.start + 10) 0)
          (r.1, Event.progress st.results.length limit st.start :: Event.debug ::
            Event.debug :: (a.2.2 ++ Event.pageComplete st.start a.2.1 a.1.length :: r.2.1),
            r.2.2)
    else (st.results, [], true)

/-- Full run of the `/api/search` streaming generator of
`src/api/search.py` (credential assumed present): clamp the limit to
[1,100], emit the key-confirmation debug event and the `start` event,
run the loop, and close a finished stream with `complete(len(results))`. -/
def search_stream_run (q : String) (limit0 : Nat) (ck cs : List String)
    (steps : List (Nat × FetchOutcome)) : List Item × List Event × Bool :=
  let limit := max 1 (min 100 limit0)
  let r := search_stream_aux q limit ck cs steps initState
  (r.1, Event.debug :: Event.start q limit ::
    (r.2.1 ++ (if r.2.2 then [Event.complete r.1.length] else [])), r.2.2)

/-- Per-page filtering/dedup pass of `search_stream` in
`src/web/server.py`: identical control flow to the API pass but reusing
the CLI module's predicates (it imports them from `newsScrp`). -/
def acceptItemsW (q : String) (limit : Nat) (ck cs : List String) :
    List (String × String) → List Item → Nat → List Item × Nat × List Event
  | [], results, n => (results, n, [])
  | (t, u) :: rest, results, n =>
    let existingTitles := results.map Item.title
    if t ∈ existingTitles then acceptItemsW q limit ck cs rest results n
    else if should_exclude_by_keywords t then acceptItemsW q limit ck cs rest results n
    else if ck.any (fun kw => strContains (removeChar '-' (removeChar ' ' t)) kw) then
      acceptItemsW q limit ck cs rest results n
    else if cs.any (fun suffix =>
        [q ++ suffix, q ++ " " ++ suffix, removeChar ' ' q ++ suffix].any
          (fun p => strContains (lowerStr t) (lowerStr p))) then
      acceptItemsW q limit ck cs rest results n
    else if should_exclude_by_query_suffix t q then acceptItemsW q limit ck cs rest results n
    else if has_overlap_three_or_more t existingTitles then acceptItemsW q limit ck cs rest results n
    else
      let results2 := results ++ [Item.mk t u]
      if limit ≤ results2.length then (results2, n + 1, [Event.item t u results2.length])
      else
        let r := acceptItemsW q limit ck cs rest results2 (n + 1)
        (r.1, r.2.1, Event.item t u results2.length :: r.2.2)

/-- Collection loop of `search_stream` in `src/web/server.py`: no
wall-clock budget, `max_pages` stays 300, backoff `min(10, 2 + attempts * 2)`,
transient-error abort bound 5 (`break`, keeping streamed results). -/
def server_stream_aux (q : String) (limit : Nat) (ck cs : List String) :
    List FetchOutcome → LoopState → List Item × List Event × Bool
  | [], st =>
    if loopGuard limit 300 st then (st.results, [], false)
    else (st.results, [], true)
  | o :: rest, st =>
    if loopGuard limit 300 st then
      match o with
      | FetchOutcome.rateLimited =>
        let r := server_stream_aux q limit ck cs rest
          (LoopState.mk st.results st.start (st.attempts + 1))
        (r.1, Event.progress st.results.length limit st.start ::
          Event.wait (min 10 (2 + st.attempts * 2)) :: r.2.1, r.2.2)
      | FetchOutcome.transientError =>
        if 5 < st.attempts + 1 then
          (st.results, [Event.progress st.results.length limit st.start, Event.error], true)
        else
          let r := server_stream_aux q limit ck cs rest
            (LoopState.mk st.results st.start (st.attempts + 1))
          (r.1, Event.progress st.results.length limit st.start :: Event.error :: r.2.1,
            r.2.2)
      | FetchOutcome.success items =>
        let a := acceptItemsW q limit ck cs items st.results 0
        let r := server_stream_aux q limit ck cs rest
          (LoopState.mk a.1 (st.start + 10) 0)
        (r.1, Event.progress st.results.length limit st.start ::
          (a.2.2 ++ Event.pageComplete st.start a.2.1 a.1.length :: r.2.1), r.2.2)
    else (st.results, [], true)

/-- Full run of the `/search-stream` generator of `src/web/server.py`
(credential assumed present). -/
def server_stream_run (q : String) (limit0 : Nat) (ck cs : List String)
    (steps : List FetchOutcome) : List Item × List Event × Bool :=
  let limit := max 1 (min 100 limit0)
  let r := server_stream_aux q limit ck cs steps initState
  (r.1, Event.start q limit ::
    (r.2.1 ++ (if r.2.2 then [Event.complete r.1.length] else [])), r.2.2)

lemma stringMk_ne_empty {r : List Char} (h : r ≠ []) : String.mk r ≠ "" := by
  intro he
  apply h
  have hd : (String.mk r).data = ("" : String).data := by rw [he]
  exact hd

lemma runsByAux_spec (p : Char → Bool) :
    ∀ (l cur : List Char), (∀ c ∈ cur, p c = true) →
      ∀ r ∈ runsByAux p l cur, r ≠ [] ∧ ∀ c ∈ r, p c = true := by
  intro l
  induction l with
  | nil =>
    intro cur hcur r hr
    by_cases hc : cur = []
    · subst hc; simp [runsByAux] at hr
    · have hne : cur.isEmpty = false := by simp [List.isEmpty_iff, hc]
      simp [runsByAux, hne] at hr
      subst hr
      refine ⟨by simp [hc], ?_⟩
      intro c hcm
      exact hcur c (by simpa using hcm)
  | cons c cs ih =>
    intro cur hcur r hr
    simp only [runsByAux] at hr
    by_cases hp : p c = true
    · rw [if_pos hp] at hr
      refine ih (c :: cur) ?_ r hr
      intro x hx
      rcases List.mem_cons.mp hx with rfl | hx
      · exact hp
      · exact hcur x hx
    · rw [if_neg hp] at hr
      by_cases hc : cur = []
      · subst hc
        simp at hr
        exact ih [] (by simp) r hr
      · have hne : cur.isEmpty = false := by simp [List.isEmpty_iff, hc]
        simp only [hne, Bool.false_eq_true, if_false] at hr
        rcases List.mem_cons.mp hr with rfl | hr
        · refine ⟨by simp [hc], ?_⟩
          intro x hx
          exact hcur x (by simpa using hx)
        · exact ih [] (by simp) r hr

/-- C8: the CLI tokenizer (`tokenize` in `src/newsScrp.py`) produces
exactly the tokens of the streaming-API tokenizer (`tokenize` in
`src/api/search.py`) with all tokens of length < 2 discarded: the two
regex character classes are the same set, both run over the lowercased
text, every extracted token is a nonempty run of word characters, and
every CLI token has length at least 2. -/
theorem tokenizers_agree (text : String) :
    tokenize text = (tokenizeS text).filter (fun t => 2 ≤ t.length) ∧
    (∀ t ∈ tokenizeS text, t ≠ "" ∧ ∀ c ∈ t.toList, isWordCharAPI c = true) ∧
    (∀ t ∈ tokenize text, 2 ≤ t.length) := by
  refine ⟨?_, ?_, ?_⟩
  · have h : isWordCharCLI = isWordCharAPI :=
      funext (fun c => decide_eq_decide.mpr (by tauto))
    simp [tokenize, tokenizeS, h]
  · intro t ht
    simp only [tokenizeS, runsBy, List.mem_map] at ht
    obtain ⟨r, hr, rfl⟩ := ht
    have hs := runsByAux_spec isWordCharAPI _ [] (by simp) r hr
    exact ⟨stringMk_ne_empty hs.1, fun c hc => hs.2 c hc⟩
  · intro t ht
    simp only [tokenize, List.mem_filter] at ht
    simpa using ht.2

/-- Witness for C8 at a concrete input. -/
theorem tokenizers_agree_witness :
    tokenize "ab cd x" = (tokenizeS "ab cd x").filter (fun t => 2 ≤ t.length) :=
  (tokenizers_agree "ab cd x").1

/-- Counterexample to C4 as stated: in `src/api/search.py` an HTTP 429
response whose body does not mention "rate limit" raises a plain error
(not the RATE_LIMIT-tagged one), and in `src/newsScrp.py` a non-429
response whose text does say "rate limit" also raises a plain error. -/
theorem firecrawl_claim_counterexample :
    firecrawl_scrapeS (HttpResponse.mk 429 "Too Many Requests" none none) =
      ScrapeResult.otherError ∧
    firecrawl_scrape (HttpResponse.mk 500 "Rate limit exceeded" none none) =
      ScrapeResult.otherError := by decide

/-- C4 as amended: on HTTP 200 both `firecrawl_scrape` implementations
return the html extracted from the JSON body, with a missing html field
yielding `""` rather than a failure; the CLI version classifies exactly
status 429 as RateLimited (independent of the error text); the API
version classifies a non-200 response as RateLimited exactly when
`"HTTP {status}: {text}"` contains "rate limit" case-insensitively. -/
theorem firecrawl_classification (r : HttpResponse) :
    (r.status = 200 →
      firecrawl_scrapeS r = ScrapeResult.success (r.dataHtml.getD "") ∧
      (r.dataHtml = none → r.topHtml = none →
        firecrawl_scrape r = ScrapeResult.success "" ∧
        firecrawl_scrapeS r = ScrapeResult.success "") ∧
      (∀ h, r.dataHtml = some h → h ≠ "" →
        firecrawl_scrape r = ScrapeResult.success h)) ∧
    (firecrawl_scrape r = ScrapeResult.rateLimited ↔ r.status = 429) ∧
    (r.status ≠ 200 →
      (firecrawl_scrapeS r = ScrapeResult.rateLimited ↔
        strContains (lowerStr ("HTTP " ++ toString r.status ++ ": " ++ r.text))
          "rate limit" = true)) := by
  refine ⟨?_, ?_, ?_⟩
  · intro h200
    refine ⟨by simp [firecrawl_scrapeS, h200], ?_, ?_⟩
    · intro hd ht
      constructor
      · simp [firecrawl_scrape, h200, hd, ht]
      · simp [firecrawl_scrapeS, h200, hd]
    · intro h hd hne
      simp [firecrawl_scrape, h200, hd, hne]
  · constructor
    · intro heq
      by_contra h429
      simp only [firecrawl_scrape, if_neg h429] at heq
      split at heq <;> simp at heq
    · intro h429
      simp [firecrawl_scrape, h429]
  · intro hne
    constructor
    · intro heq
      simp only [firecrawl_scrapeS, if_neg hne] at heq
      by_contra hrl
      rw [if_neg hrl] at heq
      simp at heq
    · intro hrl
      simp [firecrawl_scrapeS, hne, hrl]

/-- Witness for C4's amended theorem at concrete responses. -/
theorem firecrawl_classification_witness :
    firecrawl_scrapeS (HttpResponse.mk 200 "" none (some "x")) =
      ScrapeResult.success "" ∧
    firecrawl_scrape (HttpResponse.mk 429 "" none none) = ScrapeResult.rateLimited := by
  constructor
  · exact ((firecrawl_classification (HttpResponse.mk 200 "" none (some "x"))).1 rfl).1
  · exact ((firecrawl_classification (HttpResponse.mk 429 "" none none)).2.1).mpr rfl

lemma lowerStr_suffix {suf : String} (h : suf ∈ QUERY_SUFFIXES) : lowerStr suf = suf := by
  simp only [QUERY_SUFFIXES, List.mem_cons, List.not_mem_nil, or_false] at h
  rcases h with rfl | rfl | rfl | rfl | rfl | rfl <;> decide

/-- Counterexample to C7 as stated: for the CLI implementation with the
empty query and title "간", the pattern `query+"간" = "간"` is a
substring of the title, yet the function returns `false` (its emptiness
guard fires), so the claimed iff fails. -/
theorem suffix_claim_counterexample :
    should_exclude_by_query_suffix "간" "" = false ∧
    "간" ∈ QUERY_SUFFIXES ∧
    strContains (lowerStr "간") (lowerStr "" ++ "간") = true := by decide

/-- C7 as amended: the API implementation satisfies the claimed iff
exactly (some suffix yields a pattern `query+s`, `query+" "+s` or
`query(no-spaces)+s` that is a case-insensitive substring of the title);
the CLI implementation satisfies the same iff with the query first
lowercased and stripped, provided title and query are non-empty and the
stripped query is non-empty (otherwise it returns false); and both
reject the title "3일간의 여정" for query "3일" via pattern "3일간". -/
theorem suffix_filter_characterization (title query : String) :
    (should_exclude_by_query_suffixS title query = true ↔
      ∃ suf ∈ QUERY_SUFFIXES,
        (strContains (lowerStr title) (lowerStr query ++ suf) = true ∨
         strContains (lowerStr title) (lowerStr query ++ " " ++ suf) = true ∨
         strContains (lowerStr title) (removeChar ' ' (lowerStr query) ++ suf) = true)) ∧
    (title ≠ "" → query ≠ "" → trimStr (lowerStr query) ≠ "" →
      (should_exclude_by_query_suffix title query = true ↔
        ∃ suf ∈ QUERY_SUFFIXES,
          (strContains (lowerStr title) (trimStr (lowerStr query) ++ suf) = true ∨
           strContains (lowerStr title) (trimStr (lowerStr query) ++ " " ++ suf) = true ∨
           strContains (lowerStr title)
             (removeChar ' ' (trimStr (lowerStr query)) ++ suf) = true))) ∧
    (should_exclude_by_query_suffix "3일간의 여정" "3일" = true ∧
     should_exclude_by_query_suffixS "3일간의 여정" "3일" = true) := by
  refine ⟨?_, ?_, by decide⟩
  · simp only [should_exclude_by_query_suffixS, List.any_eq_true, List.mem_cons,
      List.not_mem_nil, or_false]
    constructor
    · rintro ⟨suf, hmem, hsub⟩
      refine ⟨suf, hmem, ?_⟩
      rcases hsub with ⟨p, hp, hc⟩
      rcases hp with rfl | rfl | rfl
      · exact Or.inl hc
      · exact Or.inr (Or.inl hc)
      · exact Or.inr (Or.inr hc)
    · rintro ⟨suf, hmem, hsub⟩
      refine ⟨suf, hmem, ?_⟩
      rcases hsub with hc | hc | hc
      · exact ⟨_, by simp, hc⟩
      · exact ⟨_, by simp, hc⟩
      · exact ⟨_, by simp, hc⟩
  · intro h1 h2 h3
    have hguard : ¬(title = "" ∨ query = "") := by
      rintro (h | h)
      · exact h1 h
      · exact h2 h
    simp only [should_exclude_by_query_suffix, if_neg hguard, if_neg h3,
      List.any_eq_true]
    constructor
    · rintro ⟨suf, hmem, hsub⟩
      refine ⟨suf, hmem, ?_⟩
      rcases hsub with ⟨p, hp, hc⟩
      rw [lowerStr_suffix hmem] at hp
      simp only [List.mem_cons, List.not_mem_nil, or_false] at hp
      rcases hp with rfl | rfl | rfl
      · exact Or.inl hc
      · exact Or.inr (Or.inl hc)
      · exact Or.inr (Or.inr hc)
    · rintro ⟨suf, hmem, hsub⟩
      refine ⟨suf, hmem, ?_⟩
      rw [lowerStr_suffix hmem]
      rcases hsub with hc | hc | hc
      · exact ⟨_, by simp, hc⟩
      · exact ⟨_, by simp, hc⟩
      · exact ⟨_, by simp, hc⟩

/-- Witness for C7's amended theorem: the CLI branch applied at the
spec's concrete scenario, with its hypotheses discharged. -/
theorem suffix_filter_witness :
    should_exclude_by_query_suffix "3일간의 여정" "3일" = true :=
  ((suffix_filter_characterization "3일간의 여정" "3일").2.1 (by decide) (by decide)
    (by decide)).mpr ⟨"간", by decide, Or.inl (by decide)⟩

lemma acceptItems_append (query : String) (limit : Nat) :
    ∀ (items : List (String × String)) (results : List Item),
      ∃ tail, acceptItems query limit items results = results ++ tail := by
  intro items
  induction items with
  | nil => intro results; exact ⟨[], by simp [acceptItems]⟩
  | cons hd rest ih =>
    intro results
    obtain ⟨t, u⟩ := hd
    by_cases h1 : t ∈ results.map Item.title
    · simpa [acceptItems, h1] using ih results
    · by_cases h2 : should_exclude_by_keywords t = true
      · simpa [acceptItems, h1, h2] using ih results
      · by_cases h3 : should_exclude_by_query_suffix t query = true
        · simpa [acceptItems, h1, h2, h3] using ih results
        · by_cases h4 : has_overlap_three_or_more t (results.map Item.title) = true
          · simpa [acceptItems, h1, h2, h3, h4] using ih results
          · by_cases h5 : limit ≤ results.length + 1
            · exact ⟨[Item.mk t u], by simp [acceptItems, h1, h2, h3, h4, h5]⟩
            · obtain ⟨tail, htail⟩ := ih (results ++ [Item.mk t u])
              refine ⟨Item.mk t u :: tail, ?_⟩
              have hstep : acceptItems query limit ((t, u) :: rest) results =
                  acceptItems query limit rest (results ++ [Item.mk t u]) := by
                simp [acceptItems, h1, h2, h3, h4, h5]
              rw [hstep, htail, List.append_assoc]
              rfl

lemma acceptItems_length (query : String) (limit : Nat) :
    ∀ (items : List (String × String)) (results : List Item),
      results.length < limit →
      (acceptItems query limit items results).length ≤ limit := by
  intro items
  induction items with
  | nil => intro results h; simpa [acceptItems] using le_of_lt h
  | cons hd rest ih =>
    intro results h
    obtain ⟨t, u⟩ := hd
    by_cases h1 : t ∈ results.map Item.title
    · simpa [acceptItems, h1] using ih results h
    · by_cases h2 : should_exclude_by_keywords t = true
      · simpa [acceptItems, h1, h2] using ih results h
      · by_cases h3 : should_exclude_by_query_suffix t query = true
        · simpa [acceptItems, h1, h2, h3] using ih results h
        · by_cases h4 : has_overlap_three_or_more t (results.map Item.title) = true
          · simpa [acceptItems, h1, h2, h3, h4] using ih results h
          · by_cases h5 : limit ≤ results.length + 1
            · simp only [acceptItems, if_neg h1, if_neg h2, if_neg h3, if_neg h4]
              rw [if_pos (by simpa using h5)]
              simp only [List.length_append, List.length_singleton]
              omega
            · have h6 : (results ++ [Item.mk t u]).length < limit := by
                simp only [List.length_append, List.length_singleton]
                omega
              simp only [acceptItems, if_neg h1, if_neg h2, if_neg h3, if_neg h4]
              rw [if_neg (by simpa using h5)]
              exact ih (results ++ [Item.mk t u]) h6

lemma acceptItems_nodup (query : String) (limit : Nat) :
    ∀ (items : List (String × String)) (results : List Item),
      (results.map Item.title).Nodup →
      ((acceptItems query limit items results).map Item.title).Nodup := by
  intro items
  induction items with
  | nil => intro results h; simpa [acceptItems] using h
  | cons hd rest ih =>
    intro results h
    obtain ⟨t, u⟩ := hd
    by_cases h1 : t ∈ results.map Item.title
    · simpa [acceptItems, h1] using ih results h
    · by_cases h2 : should_exclude_by_keywords t = true
      · simpa [acceptItems, h1, h2] using ih results h
      · by_cases h3 : should_exclude_by_query_suffix t query = true
        · simpa [acceptItems, h1, h2, h3] using ih results h
        · by_cases h4 : has_overlap_three_or_more t (results.map Item.title) = true
          · simpa [acceptItems, h1, h2, h3, h4] using ih results h
          · have hnd : ((results ++ [Item.mk t u]).map Item.title).Nodup := by
              simp only [List.map_append, List.map_cons, List.map_nil]
              rw [List.nodup_append]
              exact ⟨h, List.nodup_singleton t, by simpa using h1⟩
            by_cases h5 : limit ≤ results.length + 1
            · simp only [acceptItems, if_neg h1, if_neg h2, if_neg h3, if_neg h4]
              rw [if_pos (by simpa using h5)]
              exact hnd
            · simp only [acceptItems, if_neg h1, if_neg h2, if_neg h3, if_neg h4]
              rw [if_neg (by simpa using h5)]
              exact ih (results ++ [Item.mk t u]) hnd

lemma overlap_false_bound {cand : String} {existing : List String}
    (h : has_overlap_three_or_more cand existing = false) :
    ∀ prev ∈ existing, (tokSet cand ∩ tokSet prev).card ≤ 2 := by
  intro prev hprev
  by_cases hc : tokSet cand = ∅
  · rw [hc]
    simp
  · rcases Nat.lt_or_ge ((tokSet cand ∩ tokSet prev).card) 3 with hlt | hge
    · omega
    · exfalso
      have h2 : existing.any
          (fun prev => decide (3 ≤ (tokSet cand ∩ tokSet prev).card)) = true :=
        List.any_eq_true.mpr ⟨prev, hprev, by simpa using hge⟩
      have h3 : has_overlap_three_or_more cand existing = true := by
        simpa [has_overlap_three_or_more, hc] using h2
      rw [h] at h3
      exact Bool.false_ne_true h3

lemma acceptItems_pairwise (query : String) (limit : Nat) :
    ∀ (items : List (String × String)) (results : List Item),
      List.Pairwise overlapLE2 results →
      List.Pairwise overlapLE2 (acceptItems query limit items results) := by
  intro items
  induction items with
  | nil => intro results h; simpa [acceptItems] using h
  | cons hd rest ih =>
    intro results h
    obtain ⟨t, u⟩ := hd
    by_cases h1 : t ∈ results.map Item.title
    · simpa [acceptItems, h1] using ih results h
    · by_cases h2 : should_exclude_by_keywords t = true
      · simpa [acceptItems, h1, h2] using ih results h
      · by_cases h3 : should_exclude_by_query_suffix t query = true
        · simpa [acceptItems, h1, h2, h3] using ih results h
        · by_cases h4 : has_overlap_three_or_more t (results.map Item.title) = true
          · simpa [acceptItems, h1, h2, h3, h4] using ih results h
          · have hbound := overlap_false_bound (eq_false_of_ne_true h4)
            have hpw : List.Pairwise overlapLE2 (results ++ [Item.mk t u]) := by
              rw [List.pairwise_append]
              refine ⟨h, List.pairwise_singleton _ _, ?_⟩
              intro a ha b hb
              simp only [List.mem_singleton] at hb
              subst hb
              have hcard := hbound a.title (List.mem_map_of_mem Item.title ha)
              simpa [overlapLE2, Finset.inter_comm] using hcard
            by_cases h5 : limit ≤ results.length + 1
            · simp only [acceptItems, if_neg h1, if_neg h2, if_neg h3, if_neg h4]
              rw [if_pos (by simpa using h5)]
              exact hpw
            · simp only [acceptItems, if_neg h1, if_neg h2, if_neg h3, if_neg h4]
              rw [if_neg (by simpa using h5)]
              exact ih (results ++ [Item.mk t u]) hpw

lemma collect_aux_inv (query : String) (limit maxPages : Nat) (I : List Item → Prop)
    (hstep : ∀ items results, I results → results.length < limit →
      I (acceptItems query limit items results)) :
    ∀ (pages : List FetchOutcome) (st : LoopState), I st.results →
      (∀ p ∈ (collect_titles_aux query limit maxPages pages st).1, I p.1.results) ∧
      (∀ res, (collect_titles_aux query limit maxPages pages st).2 =
          RunResult.returned res → ∃ rs, I rs ∧ res = rs.take limit) ∧
      (∀ st2, (collect_titles_aux query limit maxPages pages st).2 =
          RunResult.truncated st2 → I st2.results) := by
  intro pages
  induction pages with
  | nil =>
    intro st hst
    by_cases hg : loopGuard limit maxPages st
    · refine ⟨?_, ?_, ?_⟩
      · intro p hp
        simp [collect_titles_aux, hg] at hp
      · intro res hres
        simp [collect_titles_aux, hg] at hres
      · intro st2 hst2
        simp only [collect_titles_aux, if_pos hg] at hst2
        simp only [RunResult.truncated.injEq] at hst2
        subst hst2
        exact hst
    · refine ⟨?_, ?_, ?_⟩
      · intro p hp
        simp [collect_titles_aux, hg] at hp
      · intro res hres
        simp only [collect_titles_aux, if_neg hg] at hres
        simp only [RunResult.returned.injEq] at hres
        exact ⟨st.results, hst, hres.symm⟩
      · intro st2 hst2
        simp [collect_titles_aux, hg] at hst2
  | cons o rest ih =>
    intro st hst
    by_cases hg : loopGuard limit maxPages st
    · have hlen : st.results.length < limit := hg.1
      cases o with
      | rateLimited =>
        have ihr := ih (LoopState.mk st.results st.start (st.attempts + 1)) hst
        refine ⟨?_, ?_, ?_⟩
        · intro p hp
          simp only [collect_titles_aux, if_pos hg] at hp
          rcases List.mem_cons.mp hp with rfl | hp
          · exact hst
          · exact ihr.1 p hp
        · intro res hres
          simp only [collect_titles_aux, if_pos hg] at hres
          exact ihr.2.1 res hres
        · intro st2 hst2
          simp only [collect_titles_aux, if_pos hg] at hst2
          exact ihr.2.2 st2 hst2
      | transientError =>
        by_cases ha : 5 < st.attempts + 1
        · refine ⟨?_, ?_, ?_⟩
          · intro p hp
            simp only [collect_titles_aux, if_pos hg, if_pos ha] at hp
            rcases List.mem_cons.mp hp with rfl | hp
            · exact hst
            · simp at hp
          · intro res hres
            simp only [collect_titles_aux, if_pos hg, if_pos ha] at hres
            simp at hres
          · intro st2 hst2
            simp only [collect_titles_aux, if_pos hg, if_pos ha] at hst2
            simp at hst2
        · have ihr := ih (LoopState.mk st.results st.start (st.attempts + 1)) hst
          refine ⟨?_, ?_, ?_⟩
          · intro p hp
            simp only [collect_titles_aux, if_pos hg, if_neg ha] at hp
            rcases List.mem_cons.mp hp with rfl | hp
            · exact hst
            · exact ihr.1 p hp
          · intro res hres
            simp only [collect_titles_aux, if_pos hg, if_neg ha] at hres
            exact ihr.2.1 res hres
          · intro st2 hst2
            simp only [collect_titles_aux, if_pos hg, if_neg ha] at hst2
            exact ihr.2.2 st2 hst2
      | success items =>
        have hacc : I (acceptItems query limit items st.results) :=
          hstep items st.results hst hlen
        have ihr := ih (LoopState.mk (acceptItems query limit items st.results)
          (st.start + 10) 0) hacc
        refine ⟨?_, ?_, ?_⟩
        · intro p hp
          simp only [collect_titles_aux, if_pos hg] at hp
          rcases List.mem_cons.mp hp with rfl | hp
          · exact hst
          · exact ihr.1 p hp
        · intro res hres
          simp only [collect_titles_aux, if_pos hg] at hres
          exact ihr.2.1 res hres
        · intro st2 hst2
          simp only [collect_titles_aux, if_pos hg] at hst2
          exact ihr.2.2 st2 hst2
    · refine ⟨?_, ?_, ?_⟩
      · intro p hp
        simp [collect_titles_aux, hg] at hp
      · intro res hres
        simp only [collect_titles_aux, if_neg hg] at hres
        simp only [RunResult.returned.injEq] at hres
        exact ⟨st.results, hst, hres.symm⟩
      · intro st2 hst2
        simp [collect_titles_aux, hg] at hst2

lemma overlapS_false_bound {cand : String} {existing : List String}
    (h : has_overlap_three_or_moreS cand existing = false) :
    ∀ prev ∈ existing, (tokSetS cand ∩ tokSetS prev).card ≤ 2 := by
  intro prev hprev
  rcases Nat.lt_or_ge ((tokSetS cand ∩ tokSetS prev).card) 3 with hlt | hge
  · omega
  · exfalso
    have h2 : has_overlap_three_or_moreS cand existing = true :=
      List.any_eq_true.mpr ⟨prev, hprev, by simpa using hge⟩
    rw [h] at h2
    exact Bool.false_ne_true h2

lemma acceptItemsS_cases (q : String) (limit : Nat) (ck cs : List String)
    (t u : String) (rest : List (String × String)) (results : List Item) (n : Nat) :
    (acceptItemsS q limit ck cs ((t, u) :: rest) results n =
        acceptItemsS q limit ck cs rest results n) ∨
    (¬ t ∈ results.map Item.title ∧
      has_overlap_three_or_moreS t (results.map Item.title) = false ∧
      ((limit ≤ results.length + 1 ∧
        acceptItemsS q limit ck cs ((t, u) :: rest) results n =
          (results ++ [Item.mk t u], n + 1,
            [Event.item t u (results.length + 1)])) ∨
       (¬ limit ≤ results.length + 1 ∧
        acceptItemsS q limit ck cs ((t, u) :: rest) results n =
          ((acceptItemsS q limit ck cs rest (results ++ [Item.mk t u]) (n + 1)).1,
           (acceptItemsS q limit ck cs rest (results ++ [Item.mk t u]) (n + 1)).2.1,
           Event.item t u (results.length + 1) ::
             (acceptItemsS q limit ck cs rest (results ++ [Item.mk t u]) (n + 1)).2.2)))) := by
  by_cases h1 : t ∈ results.map Item.title
  · refine Or.inl ?_
    simp only [acceptItemsS]
    rw [if_pos h1]
  · by_cases h2 : should_exclude_by_keywordsS t = true
    · refine Or.inl ?_
      simp only [acceptItemsS]
      rw [if_neg h1, if_pos h2]
    · by_cases h2b : ck.any
          (fun kw => strContains (removeChar '-' (removeChar ' ' t)) kw) = true
      · refine Or.inl ?_
        simp only [acceptItemsS]
        rw [if_neg h1, if_neg h2, if_pos h2b]
      · by_cases h2c : cs.any (fun suffix =>
            [q ++ suffix, q ++ " " ++ suffix, removeChar ' ' q ++ suffix].any
              (fun p => strContains (lowerStr t) (lowerStr p))) = true
        · refine Or.inl ?_
          simp only [acceptItemsS]
          rw [if_neg h1, if_neg h2, if_neg h2b, if_pos h2c]
        · by_cases h3 : should_exclude_by_query_suffixS t q = true
          · refine Or.inl ?_
            simp only [acceptItemsS]
            rw [if_neg h1, if_neg h2, if_neg h2b, if_neg h2c, if_pos h3]
          · by_cases h4 : has_overlap_three_or_moreS t (results.map Item.title) = true
            · refine Or.inl ?_
              simp only [acceptItemsS]
              rw [if_neg h1, if_neg h2, if_neg h2b, if_neg h2c, if_neg h3, if_pos h4]
            · refine Or.inr ⟨h1, eq_false_of_ne_true h4, ?_⟩
              by_cases h5 : limit ≤ results.length + 1
              · refine Or.inl ⟨h5, ?_⟩
                simp only [acceptItemsS]
                rw [if_neg h1, if_neg h2, if_neg h2b, if_neg h2c, if_neg h3, if_neg h4,
                  if_pos (by simpa using h5)]
                simp
              · refine Or.inr ⟨h5, ?_⟩
                simp only [acceptItemsS]
                rw [if_neg h1, if_neg h2, if_neg h2b, if_neg h2c, if_neg h3, if_neg h4,
                  if_neg (by simpa using h5)]
                simp

lemma acceptItemsS_append (q : String) (limit : Nat) (ck cs : List String) :
    ∀ (items : List (String × String)) (results : List Item) (n : Nat),
      ∃ tail, (acceptItemsS q limit ck cs items results n).1 = results ++ tail := by
  intro items
  induction items with
  | nil => intro results n; exact ⟨[], by simp [acceptItemsS]⟩
  | cons hd rest ih =>
    intro results n
    obtain ⟨t, u⟩ := hd
    rcases acceptItemsS_cases q limit ck cs t u rest results n with heq |
      ⟨h1, h4, ⟨h5, heq⟩ | ⟨h5, heq⟩⟩
    · rw [heq]; exact ih results n
    · exact ⟨[Item.mk t u], by rw [heq]⟩
    · obtain ⟨tail, htail⟩ := ih (results ++ [Item.mk t u]) (n + 1)
      refine ⟨Item.mk t u :: tail, ?_⟩
      rw [heq]
      simpa [List.append_assoc] using htail

lemma acceptItemsS_length (q : String) (limit : Nat) (ck cs : List String) :
    ∀ (items : List (String × String)) (results : List Item) (n : Nat),
      results.length < limit →
      (acceptItemsS q limit ck cs items results n).1.length ≤ limit := by
  intro items
  induction items with
  | nil => intro results n h; simpa [acceptItemsS] using le_of_lt h
  | cons hd rest ih =>
    intro results n h
    obtain ⟨t, u⟩ := hd
    rcases acceptItemsS_cases q limit ck cs t u rest results n with heq |
      ⟨h1, h4, ⟨h5, heq⟩ | ⟨h5, heq⟩⟩
    · rw [heq]; exact ih results n h
    · rw [heq]
      simp only [List.length_append, List.length_singleton]
      omega
    · rw [heq]
      exact ih (results ++ [Item.mk t u]) (n + 1)
        (by simp only [List.length_append, List.length_singleton]; omega)

lemma acceptItemsS_item_totals (q : String) (limit : Nat) (ck cs : List String) :
    ∀ (items : List (String × String)) (results : List Item) (n : Nat),
      results.length < limit →
      ∀ ev ∈ (acceptItemsS q limit ck cs items results n).2.2,
        ∀ t u k, ev = Event.item t u k → k ≤ limit := by
  intro items
  induction items with
  | nil => intro results n h ev hev; simp [acceptItemsS] at hev
  | cons hd rest ih =>
    intro results n h ev hev
    obtain ⟨t, u⟩ := hd
    rcases acceptItemsS_cases q limit ck cs t u rest results n with heq |
      ⟨h1, h4, ⟨h5, heq⟩ | ⟨h5, heq⟩⟩
    · rw [heq] at hev; exact ih results n h ev hev
    · rw [heq] at hev
      simp only [List.mem_singleton] at hev
      subst hev
      intro t2 u2 k hk
      simp only [Event.item.injEq] at hk
      omega
    · rw [heq] at hev
      rcases List.mem_cons.mp hev with rfl | hev
      · intro t2 u2 k hk
        simp only [Event.item.injEq] at hk
        omega
      · exact ih (results ++ [Item.mk t u]) (n + 1)
          (by simp only [List.length_append, List.length_singleton]; omega) ev hev

lemma acceptItemsS_events_shape (q : String) (limit : Nat) (ck cs : List String) :
    ∀ (items : List (String × String)) (results : List Item) (n : Nat),
      ∀ ev ∈ (acceptItemsS q limit ck cs items results n).2.2,
        ∃ t u k, ev = Event.item t u k := by
  intro items
  induction items with
  | nil => intro results n ev hev; simp [acceptItemsS] at hev
  | cons hd rest ih =>
    intro results n ev hev
    obtain ⟨t, u⟩ := hd
    rcases acceptItemsS_cases q limit ck cs t u rest results n with heq |
      ⟨h1, h4, ⟨h5, heq⟩ | ⟨h5, heq⟩⟩
    · rw [heq] at hev; exact ih results n ev hev
    · rw [heq] at hev
      simp only [List.mem_singleton] at hev
      exact ⟨t, u, results.length + 1, hev⟩
    · rw [heq] at hev
      rcases List.mem_cons.mp hev with rfl | hev
      · exact ⟨t, u, results.length + 1, rfl⟩
      · exact ih (results ++ [Item.mk t u]) (n + 1) ev hev

lemma acceptItemsS_nodup (q : String) (limit : Nat) (ck cs : List String) :
    ∀ (items : List (String × String)) (results : List Item) (n : Nat),
      (results.map Item.title).Nodup →
      ((acceptItemsS q limit ck cs items results n).1.map Item.title).Nodup := by
  intro items
  induction items with
  | nil => intro results n h; simpa [acceptItemsS] using h
  | cons hd rest ih =>
    intro results n h
    obtain ⟨t, u⟩ := hd
    rcases acceptItemsS_cases q limit ck cs t u rest results n with heq |
      ⟨h1, h4, ⟨h5, heq⟩ | ⟨h5, heq⟩⟩
    · rw [heq]; exact ih results n h
    · rw [heq]
      simp only [List.map_append, List.map_cons, List.map_nil]
      rw [List.nodup_append]
      exact ⟨h, List.nodup_singleton t, by simpa using h1⟩
    · rw [heq]
      refine ih (results ++ [Item.mk t u]) (n + 1) ?_
      simp only [List.map_append, List.map_cons, List.map_nil]
      rw [List.nodup_append]
      exact ⟨h, List.nodup_singleton t, by simpa using h1⟩

lemma acceptItemsS_pairwise (q : String) (limit : Nat) (ck cs : List String) :
    ∀ (items : List (String × String)) (results : List Item) (n : Nat),
      List.Pairwise overlapLE2S results →
      List.Pairwise overlapLE2S (acceptItemsS q limit ck cs items results n).1 := by
  intro items
  induction items with
  | nil => intro results n h; simpa [acceptItemsS] using h
  | cons hd rest ih =>
    intro results n h
    obtain ⟨t, u⟩ := hd
    rcases acceptItemsS_cases q limit ck cs t u rest results n with heq |
      ⟨h1, h4, ⟨h5, heq⟩ | ⟨h5, heq⟩⟩
    · rw [heq]; exact ih results n h
    · rw [heq]
      rw [List.pairwise_append]
      refine ⟨h, List.pairwise_singleton _ _, ?_⟩
      intro a ha b hb
      simp only [List.mem_singleton] at hb
      subst hb
      have hcard := overlapS_false_bound h4 a.title (List.mem_map_of_mem Item.title ha)
      simpa [overlapLE2S, Finset.inter_comm] using hcard
    · rw [heq]
      refine ih (results ++ [Item.mk t u]) (n + 1) ?_
      rw [List.pairwise_append]
      refine ⟨h, List.pairwise_singleton _ _, ?_⟩
      intro a ha b hb
      simp only [List.mem_singleton] at hb
      subst hb
      have hcard := overlapS_false_bound h4 a.title (List.mem_map_of_mem Item.title ha)
      simpa [overlapLE2S, Finset.inter_comm] using hcard

lemma stream_aux_inv (q : String) (limit : Nat) (ck cs : List String)
    (I : List Item → Prop)
    (hstep : ∀ items results, I results → results.length < limit →
      I (acceptItemsS q limit ck cs items results 0).1) :
    ∀ (steps : List (Nat × FetchOutcome)) (st : LoopState), I st.results →
      I (search_stream_aux q limit ck cs steps st).1 := by
  intro steps
  induction steps with
  | nil =>
    intro st hst
    by_cases hg : loopGuard limit (streamMaxPages limit) st
    · simpa [search_stream_aux, hg] using hst
    · simpa [search_stream_aux, hg] using hst
  | cons s rest ih =>
    intro st hst
    obtain ⟨e, o⟩ := s
    by_cases hg : loopGuard limit (streamMaxPages limit) st
    · by_cases ht : 120 < e
      · simp only [search_stream_aux, if_pos hg, if_pos ht]
        exact hst
      · cases o with
        | rateLimited =>
          simp only [search_stream_aux, if_pos hg, if_neg ht]
          exact ih _ hst
        | transientError =>
          by_cases ha : 3 < st.attempts + 1
          · simp only [search_stream_aux, if_pos hg, if_neg ht, if_pos ha]
            exact hst
          · simp only [search_stream_aux, if_pos hg, if_neg ht, if_neg ha]
            exact ih _ hst
        | success items =>
          simp only [search_stream_aux, if_pos hg, if_neg ht]
          exact ih _ (hstep items st.results hst hg.1)
    · simp only [search_stream_aux, if_neg hg]
      exact hst

lemma stream_aux_item_totals (q : String) (limit : Nat) (ck cs : List String) :
    ∀ (steps : List (Nat × FetchOutcome)) (st : LoopState),
      st.results.length ≤ limit →
      ∀ ev ∈ (search_stream_aux q limit ck cs steps st).2.1,
        ∀ t u k, ev = Event.item t u k → k ≤ limit := by
  intro steps
  induction steps with
  | nil =>
    intro st hst ev hev
    by_cases hg : loopGuard limit (streamMaxPages limit) st <;>
      simp [search_stream_aux, hg] at hev
  | cons s rest ih =>
    intro st hst ev hev
    obtain ⟨e, o⟩ := s
    by_cases hg : loopGuard limit (streamMaxPages limit) st
    · by_cases ht : 120 < e
      · simp only [search_stream_aux, if_pos hg, if_pos ht] at hev
        simp only [List.mem_singleton] at hev
        subst hev
        intro t u k hk
        simp at hk
      · cases o with
        | rateLimited =>
          simp only [search_stream_aux, if_pos hg, if_neg ht] at hev
          rcases List.mem_cons.mp hev with rfl | hev
          · intro t u k hk; simp at hk
          · rcases List.mem_cons.mp hev with rfl | hev
            · intro t u k hk; simp at hk
            · rcases List.mem_cons.mp hev with rfl | hev
              · intro t u k hk; simp at hk
              · rcases List.mem_cons.mp hev with rfl | hev
                · intro t u k hk; simp at hk
                · exact ih (LoopState.mk st.results st.start (st.attempts + 1)) hst ev hev
        | transientError =>
          by_cases ha : 3 < st.attempts + 1
          · simp only [search_stream_aux, if_pos hg, if_neg ht, if_pos ha] at hev
            simp only [List.mem_cons, List.not_mem_nil, or_false] at hev
            rcases hev with rfl | rfl | rfl | rfl <;> · intro t u k hk; simp at hk
          · simp only [search_stream_aux, if_pos hg, if_neg ht, if_neg ha] at hev
            rcases List.mem_cons.mp hev with rfl | hev
            · intro t u k hk; simp at hk
            · rcases List.mem_cons.mp hev with rfl | hev
              · intro t u k hk; simp at hk
              · rcases List.mem_cons.mp hev with rfl | hev
                · intro t u k hk; simp at hk
                · rcases List.mem_cons.mp hev with rfl | hev
                  · intro t u k hk; simp at hk
                  · exact ih (LoopState.mk st.results st.start (st.attempts + 1)) hst ev hev
        | success items =>
          have hlen : st.results.length < limit := hg.1
          simp only [search_stream_aux, if_pos hg, if_neg ht] at hev
          rcases List.mem_cons.mp hev with rfl | hev
          · intro t u k hk; simp at hk
          · rcases List.mem_cons.mp hev with rfl | hev
            · intro t u k hk; simp at hk
            · rcases List.mem_cons.mp hev with rfl | hev
              · intro t u k hk; simp at hk
              · rcases List.mem_append.mp hev with hev | hev
                · exact acceptItemsS_item_totals q limit ck cs items st.results 0
                    hlen ev hev
                · rcases List.mem_cons.mp hev with rfl | hev
                  · intro t u k hk; simp at hk
                  · exact ih (LoopState.mk
                      (acceptItemsS q limit ck cs items st.results 0).1
                      (st.start + 10) 0)
                      (acceptItemsS_length q limit ck cs items st.results 0 hlen) ev hev
    · simp [search_stream_aux, hg] at hev

lemma streamStart_le (limit : Nat) (st : LoopState)
    (hg : loopGuard limit (streamMaxPages limit) st) : st.start ≤ 21 := by
  have h2 := hg.2
  have hmp : streamMaxPages limit ≤ 3 := min_le_left _ _
  simp only [pageBound] at h2
  omega

lemma stream_aux_pages (q : String) (limit : Nat) (ck cs : List String) :
    ∀ (steps : List (Nat × FetchOutcome)) (st : LoopState),
      st.start % 10 = 1 →
      ∀ ev ∈ (search_stream_aux q limit ck cs steps st).2.1,
        (∀ c tot p, ev = Event.progress c tot p → p ≤ 21 ∧ p % 10 = 1) ∧
        (∀ p f tot, ev = Event.pageComplete p f tot → p ≤ 21 ∧ p % 10 = 1) := by
  intro steps
  induction steps with
  | nil =>
    intro st hst ev hev
    by_cases hg : loopGuard limit (streamMaxPages limit) st <;>
      simp [search_stream_aux, hg] at hev
  | cons s rest ih =>
    intro st hst ev hev
    obtain ⟨e, o⟩ := s
    by_cases hg : loopGuard limit (streamMaxPages limit) st
    · have hle : st.start ≤ 21 := streamStart_le limit st hg
      by_cases ht : 120 < e
      · simp only [search_stream_aux, if_pos hg, if_pos ht] at hev
        simp only [List.mem_singleton] at hev
        subst hev
        exact ⟨fun c tot p hk => by simp at hk, fun p f tot hk => by simp at hk⟩
      · cases o with
        | rateLimited =>
          simp only [search_stream_aux, if_pos hg, if_neg ht] at hev
          rcases List.mem_cons.mp hev with rfl | hev
          · refine ⟨fun c tot p hk => ?_, fun p f tot hk => by simp at hk⟩
            simp only [Event.progress.injEq] at hk
            obtain ⟨-, -, rfl⟩ := hk
            exact ⟨hle, hst⟩
          · rcases List.mem_cons.mp hev with rfl | hev
            · exact ⟨fun c tot p hk => by simp at hk, fun p f tot hk => by simp at hk⟩
            · rcases List.mem_cons.mp hev with rfl | hev
              · exact ⟨fun c tot p hk => by simp at hk, fun p f tot hk => by simp at hk⟩
              · rcases List.mem_cons.mp hev with rfl | hev
                · exact ⟨fun c tot p hk => by simp at hk,
                    fun p f tot hk => by simp at hk⟩
                · exact ih (LoopState.mk st.results st.start (st.attempts + 1)) hst ev hev
        | transientError =>
          by_cases ha : 3 < st.attempts + 1
          · simp only [search_stream_aux, if_pos hg, if_neg ht, if_pos ha] at hev
            simp only [List.mem_cons, List.not_mem_nil, or_false] at hev
            rcases hev with rfl | rfl | rfl | rfl
            · refine ⟨fun c tot p hk => ?_, fun p f tot hk => by simp at hk⟩
              simp only [Event.progress.injEq] at hk
              obtain ⟨-, -, rfl⟩ := hk
              exact ⟨hle, hst⟩
            · exact ⟨fun c tot p hk => by simp at hk, fun p f tot hk => by simp at hk⟩
            · exact ⟨fun c tot p hk => by simp at hk, fun p f tot hk => by simp at hk⟩
            · exact ⟨fun c tot p hk => by simp at hk, fun p f tot hk => by simp at hk⟩
          · simp only [search_stream_aux, if_pos hg, if_neg ht, if_neg ha] at hev
            rcases List.mem_cons.mp hev with rfl | hev
            · refine ⟨fun c tot p hk => ?_, fun p f tot hk => by simp at hk⟩
              simp only [Event.progress.injEq] at hk
              obtain ⟨-, -, rfl⟩ := hk
              exact ⟨hle, hst⟩
            · rcases List.mem_cons.mp hev with rfl | hev
              · exact ⟨fun c tot p hk => by simp at hk, fun p f tot hk => by simp at hk⟩
              · rcases List.mem_cons.mp hev with rfl | hev
                · exact ⟨fun c tot p hk => by simp at hk,
                    fun p f tot hk => by simp at hk⟩
                · rcases List.mem_cons.mp hev with rfl | hev
                  · exact ⟨fun c tot p hk => by simp at hk,
                      fun p f tot hk => by simp at hk⟩
                  · exact ih (LoopState.mk st.results st.start (st.attempts + 1)) hst ev hev
        | success items =>
          simp only [search_stream_aux, if_pos hg, if_neg ht] at hev
          rcases List.mem_cons.mp hev with rfl | hev
          · refine ⟨fun c tot p hk => ?_, fun p f tot hk => by simp at hk⟩
            simp only [Event.progress.injEq] at hk
            obtain ⟨-, -, rfl⟩ := hk
            exact ⟨hle, hst⟩
          · rcases List.mem_cons.mp hev with rfl | hev
            · exact ⟨fun c tot p hk => by simp at hk, fun p f tot hk => by simp at hk⟩
            · rcases List.mem_cons.mp hev with rfl | hev
              · exact ⟨fun c tot p hk => by simp at hk, fun p f tot hk => by simp at hk⟩
              · rcases List.mem_append.mp hev with hev | hev
                · obtain ⟨t, u, k, rfl⟩ :=
                    acceptItemsS_events_shape q limit ck cs items st.results 0 ev hev
                  exact ⟨fun c tot p hk => by simp at hk,
                    fun p f tot hk => by simp at hk⟩
                · rcases List.mem_cons.mp hev with rfl | hev
                  · refine ⟨fun c tot p hk => by simp at hk, fun p f tot hk => ?_⟩
                    simp only [Event.pageComplete.injEq] at hk
                    obtain ⟨rfl, -, -⟩ := hk
                    exact ⟨hle, hst⟩
                  · exact ih (LoopState.mk
                      (acceptItemsS q limit ck cs items st.results 0).1
                      (st.start + 10) 0) (by simp [Nat.add_mod_right, hst]) ev hev
    · simp [search_stream_aux, hg] at hev

lemma cliAux_head (query : String) (limit maxPages : Nat) :
    ∀ (pages : List FetchOutcome) (st : LoopState) (p : LoopState × FetchOutcome),
      (collect_titles_aux query limit maxPages pages st).1.head? = some p →
      p.1 = st := by
  intro pages st p hp
  cases pages with
  | nil =>
    by_cases hg : loopGuard limit maxPages st <;>
      simp [collect_titles_aux, hg] at hp
  | cons o rest =>
    by_cases hg : loopGuard limit maxPages st
    · cases o with
      | rateLimited =>
        simp only [collect_titles_aux, if_pos hg, List.head?_cons,
          Option.some.injEq] at hp
        subst hp; rfl
      | transientError =>
        by_cases ha : 5 < st.attempts + 1
        · simp only [collect_titles_aux, if_pos hg, if_pos ha, List.head?_cons,
            Option.some.injEq] at hp
          subst hp; rfl
        · simp only [collect_titles_aux, if_pos hg, if_neg ha, List.head?_cons,
            Option.some.injEq] at hp
          subst hp; rfl
      | success items =>
        simp only [collect_titles_aux, if_pos hg, List.head?_cons,
          Option.some.injEq] at hp
        subst hp; rfl
    · simp [collect_titles_aux, hg] at hp

lemma cliAux_chain (query : String) (limit maxPages : Nat) :
    ∀ (pages : List FetchOutcome) (st : LoopState),
      List.Chain' (fun a b =>
        b.1.start = (match a.2 with
          | FetchOutcome.success _ => a.1.start + 10
          | _ => a.1.start)) (collect_titles_aux query limit maxPages pages st).1 := by
  intro pages
  induction pages with
  | nil =>
    intro st
    by_cases hg : loopGuard limit maxPages st <;> simp [collect_titles_aux, hg]
  | cons o rest ih =>
    intro st
    by_cases hg : loopGuard limit maxPages st
    · cases o with
      | rateLimited =>
        simp only [collect_titles_aux, if_pos hg]
        refine List.chain'_cons'.mpr ⟨?_, ih _⟩
        intro b hb
        rw [cliAux_head query limit maxPages rest _ b hb]
      | transientError =>
        by_cases ha : 5 < st.attempts + 1
        · simp only [collect_titles_aux, if_pos hg, if_pos ha]
          exact List.chain'_singleton _
        · simp only [collect_titles_aux, if_pos hg, if_neg ha]
          refine List.chain'_cons'.mpr ⟨?_, ih _⟩
          intro b hb
          rw [cliAux_head query limit maxPages rest _ b hb]
      | success items =>
        simp only [collect_titles_aux, if_pos hg]
        refine List.chain'_cons'.mpr ⟨?_, ih _⟩
        intro b hb
        rw [cliAux_head query limit maxPages rest _ b hb]
    · simp [collect_titles_aux, hg]

lemma cliAux_start_facts (query : String) (limit maxPages : Nat) :
    ∀ (pages : List FetchOutcome) (st : LoopState),
      ∀ p ∈ (collect_titles_aux query limit maxPages pages st).1,
        p.1.start % 10 = st.start % 10 ∧ st.start ≤ p.1.start := by
  intro pages
  induction pages with
  | nil =>
    intro st p hp
    by_cases hg : loopGuard limit maxPages st <;>
      simp [collect_titles_aux, hg] at hp
  | cons o rest ih =>
    intro st p hp
    by_cases hg : loopGuard limit maxPages st
    · cases o with
      | rateLimited =>
        simp only [collect_titles_aux, if_pos hg] at hp
        rcases List.mem_cons.mp hp with rfl | hp
        · exact ⟨rfl, le_refl _⟩
        · exact ih (LoopState.mk st.results st.start (st.attempts + 1)) p hp
      | transientError =>
        by_cases ha : 5 < st.attempts + 1
        · simp only [collect_titles_aux, if_pos hg, if_pos ha] at hp
          simp only [List.mem_singleton] at hp
          subst hp
          exact ⟨rfl, le_refl _⟩
        · simp only [collect_titles_aux, if_pos hg, if_neg ha] at hp
          rcases List.mem_cons.mp hp with rfl | hp
          · exact ⟨rfl, le_refl _⟩
          · exact ih (LoopState.mk st.results st.start (st.attempts + 1)) p hp
      | success items =>
        simp only [collect_titles_aux, if_pos hg] at hp
        rcases List.mem_cons.mp hp with rfl | hp
        · exact ⟨rfl, le_refl _⟩
        · have hfact := ih (LoopState.mk
            (acceptItems query limit items st.results) (st.start + 10) 0) p hp
          refine ⟨?_, ?_⟩
          · rw [hfact.1]
            exact Nat.add_mod_right st.start 10
          · exact le_trans (Nat.le_add_right st.start 10) hfact.2
    · simp [collect_titles_aux, hg] at hp

/-- C9: in `collect_titles` the page cursor starts at 1, every visited
state's cursor is congruent to 1 mod 10 and at least the initial cursor,
and along the iteration trace the cursor is left unchanged by a
rate-limited (or transient-error) iteration — so the same page is
retried and, since the page budget is the cursor bound, no budget is
consumed — and advances by exactly 10 after each successfully processed
page, giving the cursor sequence 1, 11, 21, … over successful pages. -/
theorem page_cursor_stride (query : String) (limit maxPages : Nat)
    (pages : List FetchOutcome) :
    initState.start = 1 ∧
    (∀ p ∈ cliTrace query limit maxPages pages,
      p.1.start % 10 = 1 ∧ 1 ≤ p.1.start) ∧
    List.Chain' (fun a b =>
      b.1.start = (match a.2 with
        | FetchOutcome.success _ => a.1.start + 10
        | _ => a.1.start)) (cliTrace query limit maxPages pages) := by
  refine ⟨rfl, ?_, cliAux_chain query limit maxPages pages initState⟩
  intro p hp
  have hfact := cliAux_start_facts query limit maxPages pages initState p hp
  exact ⟨hfact.1, hfact.2⟩

/-- Witness for C9 at a concrete run. -/
theorem page_cursor_stride_witness :
    initState.start % 10 = 1 ∧ 1 ≤ initState.start :=
  (page_cursor_stride "ab" 5 300 [FetchOutcome.rateLimited]).2.1
    (initState, FetchOutcome.rateLimited) (by decide)

/-- C1: for every query, limit in [1,100] and any upstream page
sequence, the accumulated result list never exceeds `limit` entries at
any iteration of `collect_titles`, the value it returns has length at
most `limit`, and in the streaming endpoint the final collected list
(whose length is the total of the closing `complete` event) and the
running total of every streamed `item` event are bounded by the clamped
limit. -/
theorem result_limit_bound (query : String) (limit maxPages : Nat)
    (pages : List FetchOutcome) (q2 : String) (limit2 : Nat) (ck cs : List String)
    (steps : List (Nat × FetchOutcome)) (h1 : 1 ≤ limit) (h2 : limit ≤ 100) :
    (∀ p ∈ cliTrace query limit maxPages pages, p.1.results.length ≤ limit) ∧
    (∀ res, collect_titles query limit maxPages pages = RunResult.returned res →
      res.length ≤ limit) ∧
    (search_stream_run q2 limit2 ck cs steps).1.length ≤ max 1 (min 100 limit2) ∧
    (∀ ev ∈ (search_stream_run q2 limit2 ck cs steps).2.1, ∀ t u k,
      ev = Event.item t u k → k ≤ max 1 (min 100 limit2)) := by
  have hinv := collect_aux_inv query limit maxPages (fun rs => rs.length ≤ limit)
    (fun items results _ hlt => acceptItems_length query limit items results hlt)
    pages initState (by simp [initState])
  refine ⟨hinv.1, ?_, ?_, ?_⟩
  · intro res hres
    obtain ⟨rs, _, rfl⟩ := hinv.2.1 res hres
    rw [List.length_take]
    exact min_le_left _ _
  · have hs := stream_aux_inv q2 (max 1 (min 100 limit2)) ck cs
      (fun rs => rs.length ≤ max 1 (min 100 limit2))
      (fun items results _ hlt =>
        acceptItemsS_length q2 (max 1 (min 100 limit2)) ck cs items results 0 hlt)
      steps initState (by simp [initState])
    simpa [search_stream_run] using hs
  · intro ev hev t u k hk
    simp only [search_stream_run] at hev
    rcases List.mem_cons.mp hev with rfl | hev
    · simp at hk
    · rcases List.mem_cons.mp hev with rfl | hev
      · simp at hk
      · rcases List.mem_append.mp hev with hev | hev
        · exact stream_aux_item_totals q2 (max 1 (min 100 limit2)) ck cs steps
            initState (by simp [initState]) ev hev t u k hk
        · by_cases hfin : (search_stream_aux q2 (max 1 (min 100 limit2)) ck cs
              steps initState).2.2 = true
          · simp only [hfin, if_true, List.mem_singleton] at hev
            subst hev
            simp at hk
          · simp only [Bool.not_eq_true] at hfin
            simp [hfin] at hev

/-- Witness for C1 at a concrete run. -/
theorem result_limit_bound_witness : initState.results.length ≤ 5 :=
  (result_limit_bound "ab" 5 300 [FetchOutcome.rateLimited] "q" 5 [] []
    [] (by decide) (by decide)).1 (initState, FetchOutcome.rateLimited) (by decide)

/-- C2: every result list produced by either collection loop has
pairwise-distinct title strings — at every iteration of `collect_titles`,
in its returned value, and in the streaming endpoint's final list — and
a candidate whose title equals an already-accepted title is skipped,
leaving the result list unchanged, in both per-page passes. -/
theorem exact_dedup (query : String) (limit maxPages : Nat)
    (pages : List FetchOutcome) (q2 : String) (limit2 : Nat) (ck cs : List String)
    (steps : List (Nat × FetchOutcome)) :
    (∀ p ∈ cliTrace query limit maxPages pages, (p.1.results.map Item.title).Nodup) ∧
    (∀ res, collect_titles query limit maxPages pages = RunResult.returned res →
      (res.map Item.title).Nodup) ∧
    ((search_stream_run q2 limit2 ck cs steps).1.map Item.title).Nodup ∧
    (∀ t u rest2 rs, t ∈ rs.map Item.title →
      acceptItems query limit ((t, u) :: rest2) rs =
        acceptItems query limit rest2 rs) ∧
    (∀ t u rest2 rs n, t ∈ rs.map Item.title →
      acceptItemsS q2 limit2 ck cs ((t, u) :: rest2) rs n =
        acceptItemsS q2 limit2 ck cs rest2 rs n) := by
  have hinv := collect_aux_inv query limit maxPages
    (fun rs => (rs.map Item.title).Nodup)
    (fun items results hI _ => acceptItems_nodup query limit items results hI)
    pages initState (by simp [initState])
  refine ⟨hinv.1, ?_, ?_, ?_, ?_⟩
  · intro res hres
    obtain ⟨rs, hrs, rfl⟩ := hinv.2.1 res hres
    rw [List.map_take]
    exact List.Nodup.sublist (List.take_sublist _ _) hrs
  · have hs := stream_aux_inv q2 (max 1 (min 100 limit2)) ck cs
      (fun rs => (rs.map Item.title).Nodup)
      (fun items results hI _ =>
        acceptItemsS_nodup q2 (max 1 (min 100 limit2)) ck cs items results 0 hI)
      steps initState (by simp [initState])
    simpa [search_stream_run] using hs
  · intro t u rest2 rs hmem
    simp only [acceptItems]
    rw [if_pos hmem]
  · intro t u rest2 rs n hmem
    simp only [acceptItemsS]
    rw [if_pos hmem]

/-- Witness for C2 at a concrete run: the returned list of a run that
accepts one title has pairwise-distinct titles. -/
theorem exact_dedup_witness :
    (([Item.mk "hello world" "u"] : List Item).map Item.title).Nodup :=
  (exact_dedup "zz" 1 300 [FetchOutcome.success [("hello world", "u")]] "q" 1 [] []
    []).2.1 [Item.mk "hello world" "u"] (by decide)

/-- C3: in every result list produced by either collection loop, the
token sets of any two distinct accepted items share at most 2 tokens
(under each loop's own tokenizer); a candidate sharing exactly 3 tokens
with some accepted title is rejected by `has_overlap_three_or_more`
(either version), a candidate sharing at most 2 tokens with every
accepted title passes the check, and the per-page passes only ever
append — an earlier-accepted item is never replaced. -/
theorem near_dup_invariant (query : String) (limit maxPages : Nat)
    (pages : List FetchOutcome) (q2 : String) (limit2 : Nat) (ck cs : List String)
    (steps : List (Nat × FetchOutcome)) :
    (∀ p ∈ cliTrace query limit maxPages pages,
      List.Pairwise overlapLE2 p.1.results) ∧
    (∀ res, collect_titles query limit maxPages pages = RunResult.returned res →
      List.Pairwise overlapLE2 res) ∧
    List.Pairwise overlapLE2S (search_stream_run q2 limit2 ck cs steps).1 ∧
    (∀ cand prev existing, prev ∈ existing →
      (tokSet cand ∩ tokSet prev).card = 3 →
      has_overlap_three_or_more cand existing = true) ∧
    (∀ cand prev existing, prev ∈ existing →
      (tokSetS cand ∩ tokSetS prev).card = 3 →
      has_overlap_three_or_moreS cand existing = true) ∧
    (∀ cand existing, (∀ prev ∈ existing, (tokSet cand ∩ tokSet prev).card ≤ 2) →
      has_overlap_three_or_more cand existing = false) ∧
    (∀ cand existing, (∀ prev ∈ existing, (tokSetS cand ∩ tokSetS prev).card ≤ 2) →
      has_overlap_three_or_moreS cand existing = false) ∧
    (∀ items rs, ∃ tail, acceptItems query limit items rs = rs ++ tail) ∧
    (∀ items rs n, ∃ tail,
      (acceptItemsS q2 limit2 ck cs items rs n).1 = rs ++ tail) := by
  have hinv := collect_aux_inv query limit maxPages
    (fun rs => List.Pairwise overlapLE2 rs)
    (fun items results hI _ => acceptItems_pairwise query limit items results hI)
    pages initState (by simp [initState])
  refine ⟨hinv.1, ?_, ?_, ?_, ?_, ?_, ?_,
    acceptItems_append query limit, acceptItemsS_append q2 limit2 ck cs⟩
  · intro res hres
    obtain ⟨rs, hrs, rfl⟩ := hinv.2.1 res hres
    exact List.Pairwise.sublist (List.take_sublist _ _) hrs
  · have hs := stream_aux_inv q2 (max 1 (min 100 limit2)) ck cs
      (fun rs => List.Pairwise overlapLE2S rs)
      (fun items results hI _ =>
        acceptItemsS_pairwise q2 (max 1 (min 100 limit2)) ck cs items results 0 hI)
      steps initState (by simp [initState])
    simpa [search_stream_run] using hs
  · intro cand prev existing hmem hcard
    have hne : tokSet cand ≠ ∅ := by
      intro h0
      rw [h0] at hcard
      simp at hcard
    simp only [has_overlap_three_or_more, if_neg hne]
    exact List.any_eq_true.mpr ⟨prev, hmem, by simp [hcard]⟩
  · intro cand prev existing hmem hcard
    exact List.any_eq_true.mpr ⟨prev, hmem, by simp [hcard]⟩
  · intro cand existing hb
    cases heq : has_overlap_three_or_more cand existing with
    | false => rfl
    | true =>
      exfalso
      by_cases h0 : tokSet cand = ∅
      · simp [has_overlap_three_or_more, h0] at heq
      · simp only [has_overlap_three_or_more, if_neg h0] at heq
        obtain ⟨prev, hmem, hdec⟩ := List.any_eq_true.mp heq
        have := hb prev hmem
        simp only [decide_eq_true_eq] at hdec
        omega
  · intro cand existing hb
    cases heq : has_overlap_three_or_moreS cand existing with
    | false => rfl
    | true =>
      exfalso
      obtain ⟨prev, hmem, hdec⟩ := List.any_eq_true.mp heq
      have := hb prev hmem
      simp only [decide_eq_true_eq] at hdec
      omega

/-- Witness for C3 at a concrete run: the singleton returned list is
trivially pairwise-bounded. -/
theorem near_dup_invariant_witness :
    List.Pairwise overlapLE2 ([Item.mk "hello world" "u"] : List Item) :=
  (near_dup_invariant "zz" 1 300 [FetchOutcome.success [("hello world", "u")]]
    "q" 1 [] [] []).2.1 [Item.mk "hello world" "u"] (by decide)

/-- Counterexample to C5 as stated: in `collect_titles` ( `src/newsScrp.py`),
after one successful page that accepted one item, six consecutive
transient errors make `attempts` exceed 5 and the exception is re-raised
— the run ends in a propagated exception and the accumulated partial
result (visible in the trace) is discarded, not returned. -/
theorem transient_claim_counterexample :
    collect_titles "zz" 10 300 (FetchOutcome.success [("hello world", "u")] ::
      List.replicate 6 FetchOutcome.transientError) = RunResult.raised ∧
    (LoopState.mk [Item.mk "hello world" "u"] 11 5, FetchOutcome.transientError) ∈
      cliTrace "zz" 10 300 (FetchOutcome.success [("hello world", "u")] ::
        List.replicate 6 FetchOutcome.transientError) := by decide

/-- C5 as amended: a non-rate-limit transient error increments the
consecutive-failure counter, and once it would exceed the bound the
loop ends — in the streaming handlers by `break`, keeping the partial
results already streamed (bound 3 in `src/api/search.py`, 5 in
`src/web/server.py`, with the wrapper then emitting `complete`), while
in the CLI `collect_titles` (bound 5) the exception is re-raised,
discarding the accumulated results instead of returning them. -/
theorem transient_abort_behavior (q : String) (limit : Nat) (ck cs : List String)
    (st : LoopState) (e : Nat) (restS : List (Nat × FetchOutcome))
    (qw : String) (limitW : Nat) (ckW csW : List String) (stW : LoopState)
    (restW : List FetchOutcome)
    (query : String) (limitC maxPagesC : Nat) (stC : LoopState)
    (pagesC : List FetchOutcome)
    (hgS : loopGuard limit (streamMaxPages limit) st) (heS : e ≤ 120)
    (haS : 3 ≤ st.attempts)
    (hgW : loopGuard limitW 300 stW) (haW : 5 ≤ stW.attempts)
    (hgC : loopGuard limitC maxPagesC stC) (haC : 5 ≤ stC.attempts) :
    search_stream_aux q limit ck cs ((e, FetchOutcome.transientError) :: restS) st =
      (st.results, [Event.progress st.results.length limit st.start, Event.debug,
        Event.debug, Event.error], true) ∧
    server_stream_aux qw limitW ckW csW (FetchOutcome.transientError :: restW) stW =
      (stW.results, [Event.progress stW.results.length limitW stW.start,
        Event.error], true) ∧
    collect_titles_aux query limitC maxPagesC
      (FetchOutcome.transientError :: pagesC) stC =
      ([(stC, FetchOutcome.transientError)], RunResult.raised) := by
  refine ⟨?_, ?_, ?_⟩
  · simp only [search_stream_aux, if_pos hgS, if_neg (by omega : ¬ 120 < e),
      if_pos (by omega : 3 < st.attempts + 1)]
  · simp only [server_stream_aux, if_pos hgW,
      if_pos (by omega : 5 < stW.attempts + 1)]
  · simp only [collect_titles_aux, if_pos hgC,
      if_pos (by omega : 5 < stC.attempts + 1)]

/-- Witness for C5's amended theorem at a concrete state. -/
theorem transient_abort_behavior_witness :
    collect_titles_aux "zz" 5 300 [FetchOutcome.transientError]
      (LoopState.mk [Item.mk "a b" "u"] 11 5) =
      ([(LoopState.mk [Item.mk "a b" "u"] 11 5, FetchOutcome.transientError)],
        RunResult.raised) :=
  (transient_abort_behavior "q" 5 [] [] (LoopState.mk [] 1 3) 0 [] "q" 5 [] []
    (LoopState.mk [] 1 5) [] "zz" 5 300 (LoopState.mk [Item.mk "a b" "u"] 11 5) []
    (by decide) (by decide) (by decide) (by decide) (by decide) (by decide)
    (by decide)).2.2

/-- C6: if the 120-second wall-clock budget of the streaming endpoint is
exceeded at the top of any iteration, the loop emits exactly one
`timeout` event, performs no fetch (no further event of any kind is
produced by the loop), keeps the partial results, and the stream closes
with `complete` carrying the accumulated count; when the budget is
already exceeded before the first fetch the whole stream is
debug, start, timeout, complete with total 0.  The check compares the
controller's own elapsed-time reading with its own `timeout_limit`,
independent of the fetch client's transport timeout. -/
theorem timeout_budget (q : String) (limit : Nat) (ck cs : List String)
    (st : LoopState) (e : Nat) (o : FetchOutcome)
    (rest : List (Nat × FetchOutcome)) (limit0 : Nat)
    (hg : loopGuard limit (streamMaxPages limit) st) (he : 120 < e) :
    search_stream_aux q limit ck cs ((e, o) :: rest) st =
      (st.results, [Event.timeout], true) ∧
    search_stream_run q limit0 ck cs ((e, o) :: rest) =
      ([], [Event.debug, Event.start q (max 1 (min 100 limit0)), Event.timeout,
        Event.complete 0], true) := by
  constructor
  · simp only [search_stream_aux, if_pos hg, if_pos he]
  · have hL : 1 ≤ max 1 (min 100 limit0) := le_max_left _ _
    have hmp : 1 ≤ streamMaxPages (max 1 (min 100 limit0)) := by
      simp only [streamMaxPages]
      omega
    have hg0 : loopGuard (max 1 (min 100 limit0))
        (streamMaxPages (max 1 (min 100 limit0))) initState := by
      constructor
      · exact lt_of_lt_of_le Nat.zero_lt_one hL
      · simp only [initState, pageBound]
        omega
    have haux : search_stream_aux q (max 1 (min 100 limit0)) ck cs
        ((e, o) :: rest) initState = (initState.results, [Event.timeout], true) := by
      simp only [search_stream_aux, if_pos hg0, if_pos he]
    simp only [search_stream_run, haux]
    simp [initState]

/-- Witness for C6: budget already exceeded before the first fetch. -/
theorem timeout_budget_witness :
    search_stream_run "q" 5 [] [] [(121, FetchOutcome.rateLimited)] =
      ([], [Event.debug, Event.start "q" 5, Event.timeout, Event.complete 0],
        true) :=
  (timeout_budget "q" 5 [] [] initState 121 FetchOutcome.rateLimited [] 5
    (by decide) (by decide)).2

/-- C10: in the streaming endpoint the page budget is
`min(3, limit // 5 + 1)` (the initial 300 is overwritten before the
loop), so every `progress` and `page_complete` event of any run names a
page cursor that is at most 21 and congruent to 1 mod 10 — i.e. one of
the at most three pages 1, 11, 21 — for every requested limit. -/
theorem stream_page_cap (q : String) (limit0 : Nat) (ck cs : List String)
    (steps : List (Nat × FetchOutcome)) :
    streamMaxPages (max 1 (min 100 limit0)) ≤ 3 ∧
    (∀ ev ∈ (search_stream_run q limit0 ck cs steps).2.1,
      (∀ c tot p, ev = Event.progress c tot p → p ≤ 21 ∧ p % 10 = 1) ∧
      (∀ p f tot, ev = Event.pageComplete p f tot → p ≤ 21 ∧ p % 10 = 1)) := by
  refine ⟨min_le_left _ _, ?_⟩
  intro ev hev
  simp only [search_stream_run] at hev
  rcases List.mem_cons.mp hev with rfl | hev
  · exact ⟨fun c tot p hk => by simp at hk, fun p f tot hk => by simp at hk⟩
  · rcases List.mem_cons.mp hev with rfl | hev
    · exact ⟨fun c tot p hk => by simp at hk, fun p f tot hk => by simp at hk⟩
    · rcases List.mem_append.mp hev with hev | hev
      · exact stream_aux_pages q (max 1 (min 100 limit0)) ck cs steps initState
          (by decide) ev hev
      · by_cases hfin : (search_stream_aux q (max 1 (min 100 limit0)) ck cs steps
            initState).2.2 = true
        · simp only [hfin, if_true, List.mem_singleton] at hev
          subst hev
          exact ⟨fun c tot p hk => by simp at hk, fun p f tot hk => by simp at hk⟩
        · simp only [Bool.not_eq_true] at hfin
          simp [hfin] at hev

/-- Witness for C10 at a concrete run containing a `progress` event. -/
theorem stream_page_cap_witness : (1 : Nat) ≤ 21 ∧ 1 % 10 = 1 :=
  ((stream_page_cap "q" 1 [] [] [(0, FetchOutcome.rateLimited)]).2
    (Event.progress 0 1 1) (by decide)).1 0 1 1 rfl
